import Mathlib

/-!
Shallow embedding of `src/scoped_alloc.h`.

The header implements scope-bound resource cleanup with three macros over a
thread-local singly linked list:

* `struct _destructor_scope_node_t` (lines 9-13): one Cleanup Record, holding a
  destructor function pointer, an opaque `data` pointer, and a `next` link.
* `_tl_destructor_scope_node` (line 15): the thread-local pointer to the head of
  the current Scope Stack, initially `NULL`.
* `enter_alloc_scope(func, ...)` (lines 29-43): saves the current stack as
  `_parent_destructor_scope_node`, resets the thread-local head to `NULL`, runs
  the user work, then walks the nodes registered during the work, invoking each
  non-null destructor on its data and freeing the node, and finally restores the
  parent stack.  (The macro body as written invokes the identifier `FUNCTION`
  rather than its `func` parameter; that slip is modelled separately below.)
* `scoped_alloc(destructor, alloc, ...)` (lines 55-62): mallocs a new node,
  stores the destructor, invokes `alloc(...)` and stores its result as `data`,
  links the node onto the head of the current stack, and yields `data`.
* `scoped_malloc(type)` (line 73): definitionally
  `scoped_alloc(free, malloc, sizeof(type))`.

Modelling decisions:

* Pointers returned by user construction capabilities are modelled by fresh
  natural-number handles drawn from a counter `nextId`; a construction
  capability that fails returns `none` (the C `NULL`), matching the host
  language's standard failure signalling for allocation functions.
* Destructor function pointers are modelled as `Option Nat` (`none` = `NULL`,
  which line 35's `if(cur_node->destructor)` skips).
* Observable effects are recorded in an event trace: `recordAlloc` for the
  bookkeeping `malloc` of a node (line 56), `construct h` for an invocation of
  the user construction capability returning handle `h` (line 58), and
  `destroy d h` for an invocation of destructor `d` on data `h` (line 36).
* User work is a command `Cmd`: registrations, nested scopes, sequencing, and
  abnormal exit (a non-local transfer such as `longjmp`, which leaves the
  remaining statements of the `enter_alloc_scope` block unexecuted).
* The bookkeeping `malloc` of line 56 is assumed to succeed inside `exec`;
  its failure branch (the unchecked `NULL` that line 57 immediately
  dereferences) is modelled separately by `scoped_alloc_checked`.
* The macro body's identifier slips that do not change the evident algorithm
  (line 33 dereferences the head pointer, line 42 misspells the thread-local
  variable, line 56 misspells the struct name in `sizeof`) are modelled by the
  documented intent; the slip that changes behaviour (`FUNCTION` vs `func`,
  line 32) is modelled literally by `enter_alloc_scope_expansion_idents`.
-/

/-- One Cleanup Record: `struct _destructor_scope_node_t` (lines 9-13); the
`next` link is represented by the tail of the containing list. -/
structure destructor_scope_node_t where
  destructor : Option Nat
  data : Option Nat
  deriving DecidableEq

/-- Observable effects of the library as recorded in a trace. -/
inductive Event where
  | recordAlloc : Event
  | construct : Option Nat → Event
  | destroy : Nat → Option Nat → Event
  deriving DecidableEq

/-- How user work hands control back: a normal return, or an abnormal
non-local exit carrying a failure code. -/
inductive Outcome where
  | ok : Outcome
  | failed : Nat → Outcome
  deriving DecidableEq

/-- State of one execution context: the thread-local Scope Stack
`_tl_destructor_scope_node` (head = most recently pushed node), the supply of
fresh data handles, and the event trace accumulated so far. -/
structure ThreadState where
  tl_node : List destructor_scope_node_t
  nextId : Nat
  trace : List Event
  deriving DecidableEq

/-- A fresh execution context: line 15 initialises the thread-local stack to
`NULL`, no handles allocated, nothing observed yet. -/
def initial_thread_state : ThreadState := { tl_node := [], nextId := 0, trace := [] }

/-- Handles of the records currently held by a stack (records whose
construction returned `NULL` carry no handle). -/
def tlIds (l : List destructor_scope_node_t) : List Nat := l.filterMap (fun r => r.data)

/-- Destroy events emitted by the drain loop of lines 33-41: walk the stack
from its head, invoking each non-null destructor on the node's data. -/
def drainTrace : List destructor_scope_node_t → List Event
  | [] => []
  | r :: rest =>
      (match r.destructor with
       | some d => [Event.destroy d r.data]
       | none => []) ++ drainTrace rest

/-- One call of the `scoped_alloc` macro, lines 55-62, in a run where the
bookkeeping `malloc` of line 56 succeeds: allocate the node (line 56), store
the destructor (line 57), invoke the construction capability and store its
result (line 58; `construct_ok = false` models the capability failing by
returning `NULL`), link the node as the new stack head (lines 59-60), and
yield the stored data pointer (line 61). -/
def scoped_alloc (destructor : Option Nat) (construct_ok : Bool) (s : ThreadState) :
    Option Nat × ThreadState :=
  let data : Option Nat := if construct_ok then some s.nextId else none
  (data,
    { tl_node := { destructor := destructor, data := data } :: s.tl_node,
      nextId := if construct_ok then s.nextId + 1 else s.nextId,
      trace := s.trace ++ [Event.recordAlloc, Event.construct data] })

/-- Result of a `scoped_alloc` call when the bookkeeping `malloc` of line 56 is
allowed to fail. -/
inductive scoped_alloc_result where
  | ret : Option Nat → ThreadState → scoped_alloc_result
  | null_record_deref : ThreadState → scoped_alloc_result
  deriving DecidableEq

/-- The `scoped_alloc` macro with the outcome of the line-56 bookkeeping
`malloc` made explicit.  The expansion performs no check on `new_node`: when
the `malloc` returns `NULL`, line 57 (`new_node->destructor = destructor`)
immediately writes through the null pointer — undefined behaviour, reached
before the construction capability of line 58 is ever invoked, so the state at
that point is unchanged. -/
def scoped_alloc_checked (record_malloc_ok : Bool) (destructor : Option Nat)
    (construct_ok : Bool) (s : ThreadState) : scoped_alloc_result :=
  if record_malloc_ok then
    scoped_alloc_result.ret (scoped_alloc destructor construct_ok s).1
      (scoped_alloc destructor construct_ok s).2
  else
    scoped_alloc_result.null_record_deref s

/-- The `enter_alloc_scope` macro, lines 29-43, applied to the semantics of its
user work: save the current stack as the parent (line 30), install a fresh
empty stack (line 31), run the work (line 32); when the work returns normally,
drain the nodes it registered (lines 33-41) and restore the parent (line 42);
when the work exits abnormally (non-local transfer), control leaves the block
at once — the drain and the restore never execute. -/
def enter_alloc_scope (work : ThreadState → ThreadState × Outcome) (s : ThreadState) :
    ThreadState × Outcome :=
  match work { s with tl_node := [] } with
  | (s2, Outcome.ok) =>
      ({ tl_node := s.tl_node, nextId := s2.nextId,
         trace := s2.trace ++ drainTrace s2.tl_node }, Outcome.ok)
  | (s2, Outcome.failed e) => (s2, Outcome.failed e)

/-- User work, deep-embedded: `salloc destructor construct_ok` is one
`scoped_alloc` call, `scope body` is a nested `enter_alloc_scope`, `fail e` is
an abnormal non-local exit, `seq` is sequencing, `skip` does nothing. -/
inductive Cmd where
  | skip : Cmd
  | salloc : Option Nat → Bool → Cmd
  | fail : Nat → Cmd
  | scope : Cmd → Cmd
  | seq : Cmd → Cmd → Cmd

/-- Execution of user work over a thread state.  An abnormal exit skips the
rest of a sequence and, at a `scope`, skips the drain/restore of lines 33-42
(the transfer leaves the macro's block). -/
def exec : Cmd → ThreadState → ThreadState × Outcome
  | Cmd.skip, s => (s, Outcome.ok)
  | Cmd.salloc d cok, s => ((scoped_alloc d cok s).2, Outcome.ok)
  | Cmd.fail e, s => (s, Outcome.failed e)
  | Cmd.seq a b, s =>
      match exec a s with
      | (s1, Outcome.ok) => exec b s1
      | (s1, Outcome.failed e) => (s1, Outcome.failed e)
  | Cmd.scope body, s =>
      match exec body { s with tl_node := [] } with
      | (s2, Outcome.ok) =>
          ({ tl_node := s.tl_node, nextId := s2.nextId,
             trace := s2.trace ++ drainTrace s2.tl_node }, Outcome.ok)
      | (s2, Outcome.failed e) => (s2, Outcome.failed e)

/-- The line 73 macro: `scoped_malloc(type)` is definitionally
`scoped_alloc(free, malloc, sizeof(type))`.  `free_fn` is the model's name for
the C `free` function used as the destructor; the construction capability is
`malloc`, whose success is the `construct_ok` flag. -/
def free_fn : Nat := 0

/-- The `scoped_malloc` convenience macro as a command (line 73). -/
def scoped_malloc_cmd (construct_ok : Bool) : Cmd := Cmd.salloc (some free_fn) construct_ok

/-- Does an event record an invocation of a destructor on handle `i`? -/
def isDestroyOf (i : Nat) : Event → Bool
  | Event.destroy _ (some j) => j == i
  | _ => false

/-- How many times the trace destroys the resource with handle `i`. -/
def dCount (tr : List Event) (i : Nat) : Nat := tr.countP (isDestroyOf i)

/-- Invariant of a thread state: the current stack holds pairwise-distinct
handles, all drawn below the fresh counter and not yet destroyed; no handle is
destroyed more than once; and handles at or above the counter are untouched. -/
structure WF (s : ThreadState) : Prop where
  nodup : (tlIds s.tl_node).Nodup
  tl_lt : ∀ i ∈ tlIds s.tl_node, i < s.nextId
  tl_undestroyed : ∀ i ∈ tlIds s.tl_node, dCount s.trace i = 0
  once : ∀ i, dCount s.trace i ≤ 1
  fresh : ∀ i, s.nextId ≤ i → dCount s.trace i = 0

/-- A straight-line sequence of N `scoped_alloc` calls: registration k supplies
destructor `ds[k]` and a construction capability that succeeds. -/
def sallocSeq : List Nat → Cmd
  | [] => Cmd.skip
  | d :: rest => Cmd.seq (Cmd.salloc (some d) true) (sallocSeq rest)

/-- Registration-phase events of `sallocSeq ds` starting from fresh counter
`n`: each call mallocs its record, then constructs its handle. -/
def regEvents : Nat → List Nat → List Event
  | _, [] => []
  | n, _d :: rest => Event.recordAlloc :: Event.construct (some n) :: regEvents (n + 1) rest

/-- Destroy events of the registrations of `sallocSeq ds`, listed in
registration order. -/
def destroysOf : Nat → List Nat → List Event
  | _, [] => []
  | n, d :: rest => Event.destroy d (some n) :: destroysOf (n + 1) rest

/-- The stack built by `sallocSeq ds` from fresh counter `n` (head = most
recently registered). -/
def stackOf : Nat → List Nat → List destructor_scope_node_t
  | _, [] => []
  | n, d :: rest => stackOf (n + 1) rest ++ [{ destructor := some d, data := some n }]

/-- Identifiers referenced, in order of appearance, by the body of the
`enter_alloc_scope(func, ...)` macro (lines 29-43), with `__VA_ARGS__` spliced
as `args`.  The parameter `func` is deliberately present and unused: the macro
body never references `func`; line 32 invokes the unrelated identifier
`FUNCTION` instead, and line 42 assigns to the undeclared
`_tl_destructor_scope_node_t`. -/
def enter_alloc_scope_expansion_idents (func : String) (args : List String) : List String :=
  ["_destructor_scope_node_t", "_parent_destructor_scope_node", "_tl_destructor_scope_node",
   "_tl_destructor_scope_node", "FUNCTION"] ++ args ++
  ["_destructor_scope_node_t", "cur_node", "_tl_destructor_scope_node", "cur_node",
   "cur_node", "destructor", "cur_node", "destructor", "cur_node", "data",
   "_destructor_scope_node_t", "prev_node", "cur_node", "cur_node", "cur_node", "next",
   "free", "prev_node", "_tl_destructor_scope_node_t", "_parent_destructor_scope_node"]

/-- Is this event the bookkeeping allocation of a Cleanup Record (line 56)? -/
def is_record_alloc_ev : Event → Bool
  | Event.recordAlloc => true
  | _ => false

/-- Is this event an invocation of a construction capability (line 58)? -/
def is_construct_ev : Event → Bool
  | Event.construct _ => true
  | _ => false

/-- Some event satisfying `p` occurs strictly before some event satisfying `q`
in the trace. -/
def precedes (p q : Event → Bool) (tr : List Event) : Prop :=
  ∃ i j : Fin tr.length, i.val < j.val ∧ p (tr.get i) = true ∧ q (tr.get j) = true

instance precedesDecidable (p q : Event → Bool) (tr : List Event) :
    Decidable (precedes p q tr) :=
  inferInstanceAs (Decidable (∃ i j : Fin tr.length,
    i.val < j.val ∧ p (tr.get i) = true ∧ q (tr.get j) = true))

theorem exec_scope_eq (body : Cmd) (s : ThreadState) :
    exec (Cmd.scope body) s = enter_alloc_scope (exec body) s := rfl

theorem tlIds_nil : tlIds [] = [] := rfl

theorem tlIds_cons (r : destructor_scope_node_t) (l : List destructor_scope_node_t) :
    tlIds (r :: l) = match r.data with
      | some i => i :: tlIds l
      | none => tlIds l := by
  cases h : r.data <;> simp [tlIds, List.filterMap_cons, h]

theorem dCount_nil (i : Nat) : dCount [] i = 0 := rfl

theorem dCount_append (a b : List Event) (i : Nat) :
    dCount (a ++ b) i = dCount a i + dCount b i := List.countP_append _ _ _

theorem dCount_push_events (tr : List Event) (x : Option Nat) (i : Nat) :
    dCount (tr ++ [Event.recordAlloc, Event.construct x]) i = dCount tr i := by
  simp [dCount, List.countP_append, List.countP_cons, isDestroyOf]

theorem mem_tlIds (i : Nat) (l : List destructor_scope_node_t) :
    i ∈ tlIds l ↔ ∃ r ∈ l, r.data = some i := by
  simp [tlIds, List.mem_filterMap]

theorem exec_nextId_mono (c : Cmd) (s : ThreadState) : s.nextId ≤ (exec c s).1.nextId := by
  induction c generalizing s with
  | skip => exact Nat.le_refl _
  | salloc d cok =>
      cases cok <;> simp [exec, scoped_alloc]
  | fail e => exact Nat.le_refl _
  | scope body ih =>
      rcases h : exec body { s with tl_node := [] } with ⟨s2, o⟩
      have hb := ih { s with tl_node := [] }
      rw [h] at hb
      cases o <;> simp [exec, h] <;> exact hb
  | seq a b iha ihb =>
      rcases h : exec a s with ⟨s1, o⟩
      have ha := iha s
      rw [h] at ha
      cases o with
      | ok =>
          have hb := ihb s1
          simp [exec, h]
          exact Nat.le_trans ha hb
      | failed e => simp [exec, h]; exact ha

theorem exec_tl_ge (c : Cmd) (s : ThreadState) (m : Nat)
    (hm : m ≤ s.nextId) (h : ∀ i ∈ tlIds s.tl_node, m ≤ i) :
    ∀ i ∈ tlIds (exec c s).1.tl_node, m ≤ i := by
  induction c generalizing s with
  | skip => exact h
  | salloc d cok =>
      intro i hi
      cases cok <;>
        simp [exec, scoped_alloc, tlIds, List.filterMap_cons] at hi
      · exact h i (by simpa [tlIds] using hi)
      · rcases hi with hi | hi
        · omega
        · exact h i (by simpa [tlIds] using hi)
  | fail e => exact h
  | scope body ih =>
      rcases hb : exec body { s with tl_node := [] } with ⟨s2, o⟩
      have h2 := ih { s with tl_node := [] } hm (by simp [tlIds])
      rw [hb] at h2
      cases o <;> simp [exec, hb]
      · exact h
      · exact h2
  | seq a b iha ihb =>
      rcases ha : exec a s with ⟨s1, o⟩
      have h1 := iha s hm h
      rw [ha] at h1
      cases o with
      | ok =>
          have hm1 : m ≤ s1.nextId := by
            have hmono := exec_nextId_mono a s
            rw [ha] at hmono
            exact Nat.le_trans hm hmono
          have h2 := ihb s1 hm1 h1
          simpa [exec, ha] using h2
      | failed e => simpa [exec, ha] using h1

theorem dCount_drainTrace_lt (l : List destructor_scope_node_t) (m i : Nat)
    (hge : ∀ j ∈ tlIds l, m ≤ j) (hi : i < m) :
    dCount (drainTrace l) i = 0 := by
  induction l with
  | nil => rfl
  | cons r rest ih =>
      have hrest : ∀ j ∈ tlIds rest, m ≤ j := by
        intro j hj
        apply hge
        rcases (mem_tlIds j rest).1 hj with ⟨x, hx, hd⟩
        exact (mem_tlIds j (r :: rest)).2 ⟨x, List.mem_cons_of_mem _ hx, hd⟩
      cases hd : r.destructor with
      | none => simpa [drainTrace, hd] using ih hrest
      | some d =>
          cases hdata : r.data with
          | none =>
              simp [drainTrace, hd, hdata, dCount, List.countP_cons, isDestroyOf]
              simpa [dCount] using ih hrest
          | some j =>
              have hj : m ≤ j := hge j ((mem_tlIds j (r :: rest)).2 ⟨r, List.mem_cons_self _ _, hdata⟩)
              have hji : (j == i) = false := by
                simp only [beq_eq_false_iff_ne]
                omega
              simp [drainTrace, hd, hdata, dCount, List.countP_cons, isDestroyOf, hji]
              simpa [dCount] using ih hrest

theorem dCount_drainTrace_not_mem (l : List destructor_scope_node_t) (i : Nat)
    (hni : i ∉ tlIds l) : dCount (drainTrace l) i = 0 := by
  induction l with
  | nil => rfl
  | cons r rest ih =>
      have hrest : i ∉ tlIds rest := by
        intro hmem
        apply hni
        rcases (mem_tlIds i rest).1 hmem with ⟨x, hx, hd⟩
        exact (mem_tlIds i (r :: rest)).2 ⟨x, List.mem_cons_of_mem _ hx, hd⟩
      cases hd : r.destructor with
      | none => simpa [drainTrace, hd] using ih hrest
      | some d =>
          cases hdata : r.data with
          | none =>
              simp [drainTrace, hd, hdata, dCount, List.countP_cons, isDestroyOf]
              simpa [dCount] using ih hrest
          | some j =>
              have hji : (j == i) = false := by
                simp only [beq_eq_false_iff_ne]
                intro hj
                subst hj
                exact hni ((mem_tlIds j (r :: rest)).2 ⟨r, List.mem_cons_self _ _, hdata⟩)
              simp [drainTrace, hd, hdata, dCount, List.countP_cons, isDestroyOf, hji]
              simpa [dCount] using ih hrest

theorem exec_dCount_lt (c : Cmd) (s : ThreadState) (i : Nat) (hi : i < s.nextId) :
    dCount (exec c s).1.trace i = dCount s.trace i := by
  induction c generalizing s with
  | skip => rfl
  | salloc d cok =>
      cases cok <;> simp [exec, scoped_alloc, dCount_push_events]
  | fail e => rfl
  | scope body ih =>
      rcases hb : exec body { s with tl_node := [] } with ⟨s2, o⟩
      have h2 := ih { s with tl_node := [] } hi
      rw [hb] at h2
      have hfresh : ∀ j ∈ tlIds s2.tl_node, s.nextId ≤ j := by
        have := exec_tl_ge body { s with tl_node := [] } s.nextId (Nat.le_refl _)
          (by simp [tlIds])
        rw [hb] at this
        exact this
      cases o with
      | ok =>
          simp only [exec, hb]
          rw [dCount_append, h2, dCount_drainTrace_lt s2.tl_node s.nextId i hfresh hi]
          simp
      | failed e => simpa [exec, hb] using h2
  | seq a b iha ihb =>
      rcases ha : exec a s with ⟨s1, o⟩
      have h1 := iha s hi
      rw [ha] at h1
      cases o with
      | ok =>
          have hi1 : i < s1.nextId := by
            have hmono := exec_nextId_mono a s
            rw [ha] at hmono
            exact Nat.lt_of_lt_of_le hi hmono
          have h2 := ihb s1 hi1
          simp only [exec, ha]
          rw [h2]
          exact h1
      | failed e => simpa [exec, ha] using h1

theorem dCount_drainTrace_le_one (l : List destructor_scope_node_t) (i : Nat)
    (hnd : (tlIds l).Nodup) : dCount (drainTrace l) i ≤ 1 := by
  induction l with
  | nil => exact Nat.zero_le 1
  | cons r rest ih =>
      cases hdata : r.data with
      | none =>
          have hnd' : (tlIds rest).Nodup := by
            rw [tlIds_cons] at hnd
            simpa [hdata] using hnd
          cases hd : r.destructor with
          | none => simpa [drainTrace, hd] using ih hnd'
          | some d =>
              have := ih hnd'
              simp only [drainTrace, hd]
              rw [dCount_append]
              simpa [dCount, List.countP_cons, isDestroyOf, hdata] using this
      | some j =>
          have hnd2 : j ∉ tlIds rest ∧ (tlIds rest).Nodup := by
            rw [tlIds_cons] at hnd
            simp only [hdata] at hnd
            exact List.nodup_cons.1 hnd
          cases hd : r.destructor with
          | none => simpa [drainTrace, hd] using ih hnd2.2
          | some d =>
              by_cases hji : j = i
              · subst hji
                have hz := dCount_drainTrace_not_mem rest j hnd2.1
                simp only [drainTrace, hd]
                rw [dCount_append, hz]
                simp [dCount, List.countP_cons, isDestroyOf, hdata]
              · have := ih hnd2.2
                have hjib : (j == i) = false := by simp [hji]
                simp only [drainTrace, hd]
                rw [dCount_append]
                simpa [dCount, List.countP_cons, isDestroyOf, hdata, hjib] using this

theorem dCount_drainTrace_eq_one (l : List destructor_scope_node_t)
    (r : destructor_scope_node_t) (d i : Nat) (hnd : (tlIds l).Nodup)
    (hr : r ∈ l) (hrd : r.destructor = some d) (hdata : r.data = some i) :
    dCount (drainTrace l) i = 1 := by
  induction l with
  | nil => cases hr
  | cons hd rest ih =>
      rcases List.mem_cons.1 hr with heq | hmem
      · subst heq
        have hni : i ∉ tlIds rest := by
          rw [tlIds_cons] at hnd
          simp only [hdata] at hnd
          exact (List.nodup_cons.1 hnd).1
        have hz := dCount_drainTrace_not_mem rest i hni
        simp only [drainTrace, hrd]
        rw [dCount_append, hz]
        simp [dCount, List.countP_cons, isDestroyOf, hdata]
      · have himem : i ∈ tlIds rest :=
          (mem_tlIds i rest).2 ⟨r, hmem, hdata⟩
        cases hhd : hd.data with
        | none =>
            have hnd' : (tlIds rest).Nodup := by
              rw [tlIds_cons] at hnd
              simpa [hhd] using hnd
            cases hdd : hd.destructor with
            | none => simpa [drainTrace, hdd] using ih hnd' hmem
            | some d2 =>
                simp only [drainTrace, hdd]
                rw [dCount_append]
                have := ih hnd' hmem
                simpa [dCount, List.countP_cons, isDestroyOf, hhd] using this
        | some j =>
            have hnd2 : j ∉ tlIds rest ∧ (tlIds rest).Nodup := by
              rw [tlIds_cons] at hnd
              simp only [hhd] at hnd
              exact List.nodup_cons.1 hnd
            have hji : (j == i) = false := by
              simp only [beq_eq_false_iff_ne]
              intro hj
              subst hj
              exact hnd2.1 himem
            cases hdd : hd.destructor with
            | none => simpa [drainTrace, hdd] using ih hnd2.2 hmem
            | some d2 =>
                simp only [drainTrace, hdd]
                rw [dCount_append]
                have := ih hnd2.2 hmem
                simpa [dCount, List.countP_cons, isDestroyOf, hhd, hji] using this
theorem WF_initial : WF initial_thread_state := by
  refine ⟨?_, ?_, ?_, ?_, ?_⟩
  · simp [initial_thread_state, tlIds]
  · simp [initial_thread_state, tlIds]
  · simp [initial_thread_state, tlIds]
  · intro i; simp [initial_thread_state, dCount]
  · intro i _; simp [initial_thread_state, dCount]

theorem tlIds_cons_some (d2 : Option Nat) (n : Nat) (l : List destructor_scope_node_t) :
    tlIds ({ destructor := d2, data := some n } :: l) = n :: tlIds l := rfl

theorem tlIds_cons_none (d2 : Option Nat) (l : List destructor_scope_node_t) :
    tlIds ({ destructor := d2, data := none } :: l) = tlIds l := rfl

theorem WF_salloc (d : Option Nat) (cok : Bool) (s : ThreadState) (hs : WF s) :
    WF (scoped_alloc d cok s).2 := by
  have hni : s.nextId ∉ tlIds s.tl_node := fun hmem =>
    absurd (hs.tl_lt _ hmem) (Nat.lt_irrefl _)
  cases cok with
  | false =>
      refine ⟨?_, ?_, ?_, ?_, ?_⟩
      · show (tlIds ({ destructor := d, data := none } :: s.tl_node)).Nodup
        rw [tlIds_cons_none]
        exact hs.nodup
      · intro i hi
        have hi' : i ∈ tlIds s.tl_node := hi
        show i < s.nextId
        exact hs.tl_lt i hi'
      · intro i hi
        have hi' : i ∈ tlIds s.tl_node := hi
        show dCount (s.trace ++ [Event.recordAlloc, Event.construct none]) i = 0
        rw [dCount_push_events]
        exact hs.tl_undestroyed i hi'
      · intro i
        show dCount (s.trace ++ [Event.recordAlloc, Event.construct none]) i ≤ 1
        rw [dCount_push_events]
        exact hs.once i
      · intro i hi
        have hi' : s.nextId ≤ i := hi
        show dCount (s.trace ++ [Event.recordAlloc, Event.construct none]) i = 0
        rw [dCount_push_events]
        exact hs.fresh i hi'
  | true =>
      refine ⟨?_, ?_, ?_, ?_, ?_⟩
      · show (tlIds ({ destructor := d, data := some s.nextId } :: s.tl_node)).Nodup
        rw [tlIds_cons_some]
        exact List.nodup_cons.2 ⟨hni, hs.nodup⟩
      · intro i hi
        have hi' : i ∈ s.nextId :: tlIds s.tl_node := hi
        show i < s.nextId + 1
        rcases List.mem_cons.1 hi' with heq | hmem
        · omega
        · have := hs.tl_lt i hmem
          omega
      · intro i hi
        have hi' : i ∈ s.nextId :: tlIds s.tl_node := hi
        show dCount (s.trace ++ [Event.recordAlloc, Event.construct (some s.nextId)]) i = 0
        rw [dCount_push_events]
        rcases List.mem_cons.1 hi' with heq | hmem
        · subst heq
          exact hs.fresh _ (Nat.le_refl _)
        · exact hs.tl_undestroyed i hmem
      · intro i
        show dCount (s.trace ++ [Event.recordAlloc, Event.construct (some s.nextId)]) i ≤ 1
        rw [dCount_push_events]
        exact hs.once i
      · intro i hi
        have hi' : s.nextId + 1 ≤ i := hi
        show dCount (s.trace ++ [Event.recordAlloc, Event.construct (some s.nextId)]) i = 0
        rw [dCount_push_events]
        exact hs.fresh i (by omega)

theorem exec_WF (c : Cmd) (s : ThreadState) (hs : WF s) : WF (exec c s).1 := by
  induction c generalizing s with
  | skip => exact hs
  | fail e => exact hs
  | salloc d cok => exact WF_salloc d cok s hs
  | scope body ih =>
      have hs0 : WF { s with tl_node := [] } := by
        refine ⟨?_, ?_, ?_, hs.once, hs.fresh⟩
        · simp [tlIds]
        · simp [tlIds]
        · simp [tlIds]
      rcases hb : exec body { s with tl_node := [] } with ⟨s2, o⟩
      have hWF2 : WF s2 := by
        have := ih { s with tl_node := [] } hs0
        rwa [hb] at this
      have hmono : s.nextId ≤ s2.nextId := by
        have := exec_nextId_mono body { s with tl_node := [] }
        rwa [hb] at this
      have hfresh2 : ∀ j ∈ tlIds s2.tl_node, s.nextId ≤ j := by
        have := exec_tl_ge body { s with tl_node := [] } s.nextId (Nat.le_refl _)
          (by simp [tlIds])
        rwa [hb] at this
      have htr : dCount s2.trace = fun i => dCount (exec body { s with tl_node := [] }).1.trace i := by
        rw [hb]
      cases o with
      | failed e =>
          simp only [exec, hb]
          exact hWF2
      | ok =>
          simp only [exec, hb]
          refine ⟨hs.nodup, ?_, ?_, ?_, ?_⟩
          · intro i hi
            exact Nat.lt_of_lt_of_le (hs.tl_lt i hi) hmono
          · intro i hi
            have hlt : i < s.nextId := hs.tl_lt i hi
            have h2 : dCount s2.trace i = dCount s.trace i := by
              have := exec_dCount_lt body { s with tl_node := [] } i hlt
              rw [hb] at this
              exact this
            rw [dCount_append, h2, hs.tl_undestroyed i hi,
              dCount_drainTrace_lt s2.tl_node s.nextId i hfresh2 hlt]
          · intro i
            rw [dCount_append]
            by_cases hmem : i ∈ tlIds s2.tl_node
            · have hz : dCount s2.trace i = 0 := hWF2.tl_undestroyed i hmem
              have hle : dCount (drainTrace s2.tl_node) i ≤ 1 :=
                dCount_drainTrace_le_one s2.tl_node i hWF2.nodup
              omega
            · have hz : dCount (drainTrace s2.tl_node) i = 0 :=
                dCount_drainTrace_not_mem s2.tl_node i hmem
              have hle := hWF2.once i
              omega
          · intro i hi
            have hi2 : s2.nextId ≤ i := hi
            rw [dCount_append]
            have h1 : dCount s2.trace i = 0 := hWF2.fresh i hi2
            have h2 : dCount (drainTrace s2.tl_node) i = 0 := by
              apply dCount_drainTrace_not_mem
              intro hmem
              exact absurd (hWF2.tl_lt i hmem) (by omega)
            omega
  | seq a b iha ihb =>
      rcases ha : exec a s with ⟨s1, o⟩
      have h1 : WF s1 := by
        have := iha s hs
        rwa [ha] at this
      cases o with
      | ok =>
          have := ihb s1 h1
          simpa [exec, ha] using this
      | failed e =>
          simp only [exec, ha]
          exact h1
theorem drainTrace_append (a b : List destructor_scope_node_t) :
    drainTrace (a ++ b) = drainTrace a ++ drainTrace b := by
  induction a with
  | nil => rfl
  | cons r rest ih =>
      cases hd : r.destructor <;> simp [drainTrace, hd, ih]

theorem drainTrace_stackOf (n : Nat) (ds : List Nat) :
    drainTrace (stackOf n ds) = (destroysOf n ds).reverse := by
  induction ds generalizing n with
  | nil => rfl
  | cons d rest ih =>
      simp [stackOf, drainTrace_append, destroysOf, drainTrace, ih]

theorem exec_sallocSeq (ds : List Nat) (s : ThreadState) :
    exec (sallocSeq ds) s =
      ({ tl_node := stackOf s.nextId ds ++ s.tl_node,
         nextId := s.nextId + ds.length,
         trace := s.trace ++ regEvents s.nextId ds }, Outcome.ok) := by
  induction ds generalizing s with
  | nil => simp [sallocSeq, exec, stackOf, regEvents]
  | cons d rest ih =>
      have hstep : (scoped_alloc (some d) true s).2 =
          { tl_node := { destructor := some d, data := some s.nextId } :: s.tl_node,
            nextId := s.nextId + 1,
            trace := s.trace ++ [Event.recordAlloc, Event.construct (some s.nextId)] } := rfl
      simp only [sallocSeq, exec, hstep, ih, Prod.mk.injEq, ThreadState.mk.injEq]
      refine ⟨⟨?_, ?_, ?_⟩, trivial⟩
      · simp [stackOf, List.append_assoc]
      · simp [List.length_cons]
        omega
      · simp [regEvents, List.append_assoc]
/-- C1: for every sequence of N registrations made via `scoped_alloc` within a
single scope opened by `enter_alloc_scope`, the registered destructors are
invoked at scope exit in exact reverse order of registration: the trace first
records the N registrations in call order, then the N destroy events in
exactly the reverse of that order, the parent stack is restored, and the scope
completes normally. -/
theorem C1_destructors_reverse_order (ds : List Nat) (s : ThreadState) :
    exec (Cmd.scope (sallocSeq ds)) s =
      ({ tl_node := s.tl_node, nextId := s.nextId + ds.length,
         trace := s.trace ++ regEvents s.nextId ds ++ (destroysOf s.nextId ds).reverse },
       Outcome.ok) := by
  have hbody := exec_sallocSeq ds { s with tl_node := [] }
  simp only [exec, hbody]
  simp [drainTrace_stackOf, List.append_assoc]

/-- C2 counterexample: the work registers one record (destructor 7, handle 0)
and then exits abnormally with failure 3.  The failure is observed by the
caller of `enter_alloc_scope`, yet no destroy event was emitted — the record
registered before the failure point was not destroyed, so the claim that every
registered record is drained before the failure propagates is false on this
input. -/
theorem C2_abnormal_exit_counterexample :
    exec (Cmd.scope (Cmd.seq (Cmd.salloc (some 7) true) (Cmd.fail 3))) initial_thread_state
      = ({ tl_node := [{ destructor := some 7, data := some 0 }], nextId := 1,
           trace := [Event.recordAlloc, Event.construct (some 0)] }, Outcome.failed 3)
    ∧ dCount (exec (Cmd.scope (Cmd.seq (Cmd.salloc (some 7) true) (Cmd.fail 3)))
        initial_thread_state).1.trace 0 = 0 := ⟨rfl, rfl⟩

/-- C2 amended: when the user work exits abnormally, `enter_alloc_scope`
propagates the original failure unchanged to its caller, but the drain of
lines 33-41 and the restore of line 42 are skipped entirely: the state at the
failure point is passed through untouched, so no record registered in the
scope is destroyed and the parent stack is not restored.  Records are drained
only on the normal-return path. -/
theorem C2_abnormal_exit_skips_drain (body : Cmd) (s s2 : ThreadState) (e : Nat)
    (h : exec body { s with tl_node := [] } = (s2, Outcome.failed e)) :
    exec (Cmd.scope body) s = (s2, Outcome.failed e) := by
  simp [exec, h]

/-- C2 witness: the amended theorem applied to the concrete run of the
counterexample. -/
theorem C2_abnormal_exit_witness :
    exec (Cmd.scope (Cmd.seq (Cmd.salloc (some 7) true) (Cmd.fail 3))) initial_thread_state
      = ({ tl_node := [{ destructor := some 7, data := some 0 }], nextId := 1,
           trace := [Event.recordAlloc, Event.construct (some 0)] }, Outcome.failed 3) :=
  C2_abnormal_exit_skips_drain (Cmd.seq (Cmd.salloc (some 7) true) (Cmd.fail 3))
    initial_thread_state
    { tl_node := [{ destructor := some 7, data := some 0 }], nextId := 1,
      trace := [Event.recordAlloc, Event.construct (some 0)] } 3 rfl

/-- C3: the body of `enter_alloc_scope(func, ...)` never references its `func`
parameter — the identifier `my_work` passed as the work capability does not
occur among the identifiers the expansion references, while the unrelated
identifier `FUNCTION` (line 32) does.  The user-supplied work is therefore not
invoked by the macro as written, contradicting the macro's own documentation
(`@param func a function to execute`, line 26). -/
theorem C3_func_never_invoked :
    "my_work" ∉ enter_alloc_scope_expansion_idents "my_work" ["42"]
    ∧ "FUNCTION" ∈ enter_alloc_scope_expansion_idents "my_work" ["42"] := by
  constructor
  · decide
  · decide

/-- C4: when a nested `enter_alloc_scope` exits normally, only the records
registered inside that nested scope are drained (the events appended are
exactly the drain of the nested stack), the enclosing scope's own records are
untouched (their destroy counts are unchanged, provided the enclosing records'
handles predate the nested scope), the parent stack is restored as the current
thread-local stack, and the enclosing scope's subsequent commands run on that
restored state. -/
theorem C4_nested_scope_isolation (body : Cmd) (s s2 : ThreadState)
    (hpar : ∀ i ∈ tlIds s.tl_node, i < s.nextId)
    (h : exec body { s with tl_node := [] } = (s2, Outcome.ok)) :
    exec (Cmd.scope body) s
      = ({ tl_node := s.tl_node, nextId := s2.nextId,
           trace := s2.trace ++ drainTrace s2.tl_node }, Outcome.ok)
    ∧ (∀ i ∈ tlIds s.tl_node,
        dCount (exec (Cmd.scope body) s).1.trace i = dCount s.trace i)
    ∧ (∀ rest : Cmd, exec (Cmd.seq (Cmd.scope body) rest) s
        = exec rest { tl_node := s.tl_node, nextId := s2.nextId,
                      trace := s2.trace ++ drainTrace s2.tl_node }) := by
  have hscope : exec (Cmd.scope body) s
      = ({ tl_node := s.tl_node, nextId := s2.nextId,
           trace := s2.trace ++ drainTrace s2.tl_node }, Outcome.ok) := by
    simp [exec, h]
  refine ⟨hscope, ?_, ?_⟩
  · intro i hi
    have hlt : i < s.nextId := hpar i hi
    rw [hscope]
    show dCount (s2.trace ++ drainTrace s2.tl_node) i = dCount s.trace i
    have h2 : dCount s2.trace i = dCount s.trace i := by
      have := exec_dCount_lt body { s with tl_node := [] } i hlt
      rwa [h] at this
    have hfresh : ∀ j ∈ tlIds s2.tl_node, s.nextId ≤ j := by
      have := exec_tl_ge body { s with tl_node := [] } s.nextId (Nat.le_refl _)
        (by simp [tlIds])
      rwa [h] at this
    rw [dCount_append, h2, dCount_drainTrace_lt s2.tl_node s.nextId i hfresh hlt]
    omega
  · intro rest
    simp [exec, h]

/-- C4 witness: a nested scope that registers one record (destructor 5) inside
a fresh context; the drain destroys exactly that record and the (empty) parent
stack is restored. -/
theorem C4_nested_scope_isolation_witness :
    exec (Cmd.scope (Cmd.salloc (some 5) true)) initial_thread_state
      = ({ tl_node := [], nextId := 1,
           trace := [Event.recordAlloc, Event.construct (some 0),
                     Event.destroy 5 (some 0)] }, Outcome.ok) :=
  (C4_nested_scope_isolation (Cmd.salloc (some 5) true) initial_thread_state
    { tl_node := [{ destructor := some 5, data := some 0 }], nextId := 1,
      trace := [Event.recordAlloc, Event.construct (some 0)] }
    (by decide) rfl).1

/-- C5: for every registration that succeeded inside a scope whose work
returns normally and that carries a non-null destructor, the destructor is
invoked exactly once, exactly at the owning scope's exit: its handle has
destroy count 0 at the moment the work finishes and destroy count 1 after the
scope's drain; moreover, over the whole run from any well-formed state, no
handle is ever destroyed more than once, so nothing registered is destroyed
twice and each drained record is retired. -/
theorem C5_destroy_exactly_once (body : Cmd) (s s2 : ThreadState) (hWF : WF s)
    (h : exec body { s with tl_node := [] } = (s2, Outcome.ok)) :
    (∀ r ∈ s2.tl_node, ∀ d i, r.destructor = some d → r.data = some i →
        dCount s2.trace i = 0 ∧ dCount (exec (Cmd.scope body) s).1.trace i = 1)
    ∧ (∀ i, dCount (exec (Cmd.scope body) s).1.trace i ≤ 1) := by
  have hscope : exec (Cmd.scope body) s
      = ({ tl_node := s.tl_node, nextId := s2.nextId,
           trace := s2.trace ++ drainTrace s2.tl_node }, Outcome.ok) := by
    simp [exec, h]
  have hWF0 : WF { s with tl_node := [] } :=
    ⟨by simp [tlIds], by simp [tlIds], by simp [tlIds], hWF.once, hWF.fresh⟩
  have hWF2 : WF s2 := by
    have := exec_WF body { s with tl_node := [] } hWF0
    rwa [h] at this
  constructor
  · intro r hr d i hrd hdata
    have himem : i ∈ tlIds s2.tl_node := (mem_tlIds i s2.tl_node).2 ⟨r, hr, hdata⟩
    have h0 : dCount s2.trace i = 0 := hWF2.tl_undestroyed i himem
    refine ⟨h0, ?_⟩
    rw [hscope]
    show dCount (s2.trace ++ drainTrace s2.tl_node) i = 1
    rw [dCount_append, h0,
      dCount_drainTrace_eq_one s2.tl_node r d i hWF2.nodup hr hrd hdata]
  · intro i
    exact (exec_WF (Cmd.scope body) s hWF).once i

/-- C5 witness: one successful registration (destructor 5, handle 0) in a
fresh context; before the scope exits its handle is undestroyed, after the
exit it has been destroyed exactly once. -/
theorem C5_destroy_exactly_once_witness :
    dCount [Event.recordAlloc, Event.construct (some 0)] 0 = 0
    ∧ dCount (exec (Cmd.scope (Cmd.salloc (some 5) true)) initial_thread_state).1.trace 0
        = 1 :=
  (C5_destroy_exactly_once (Cmd.salloc (some 5) true) initial_thread_state
      { tl_node := [{ destructor := some 5, data := some 0 }], nextId := 1,
        trace := [Event.recordAlloc, Event.construct (some 0)] }
      WF_initial rfl).1
    { destructor := some 5, data := some 0 } (by decide) 5 0 rfl rfl

/-- C6 counterexample: a single `scoped_alloc` whose construction capability
fails (returns `NULL`, construct event `none`).  Contrary to the claim, a
Cleanup Record holding the null handle is registered on the stack, and at
scope exit the destructor (5) is invoked on `NULL` for that failed attempt. -/
theorem C6_construction_failure_counterexample :
    (exec (Cmd.salloc (some 5) false) initial_thread_state).1.tl_node
      = [{ destructor := some 5, data := none }]
    ∧ (exec (Cmd.scope (Cmd.salloc (some 5) false)) initial_thread_state).1.trace
      = [Event.recordAlloc, Event.construct none, Event.destroy 5 none] := ⟨rfl, rfl⟩

/-- C6 amended: `scoped_alloc` performs no check on the construction result
(line 58): when the construction capability fails by returning `NULL`, a
Cleanup Record holding the null handle is registered anyway and its destructor
is invoked with `NULL` at scope exit; a prior successful registration in the
same scope is still destroyed as usual, after the failed one. -/
theorem C6_construction_failure_still_registers (d1 d2 : Nat) (s : ThreadState) :
    exec (Cmd.salloc (some d2) false) s
      = ({ tl_node := { destructor := some d2, data := none } :: s.tl_node,
           nextId := s.nextId,
           trace := s.trace ++ [Event.recordAlloc, Event.construct none] }, Outcome.ok)
    ∧ exec (Cmd.scope (Cmd.seq (Cmd.salloc (some d1) true) (Cmd.salloc (some d2) false))) s
      = ({ tl_node := s.tl_node, nextId := s.nextId + 1,
           trace := s.trace ++ [Event.recordAlloc, Event.construct (some s.nextId),
                                Event.recordAlloc, Event.construct none,
                                Event.destroy d2 none, Event.destroy d1 (some s.nextId)] },
         Outcome.ok) := by
  constructor
  · rfl
  · simp [exec, scoped_alloc, drainTrace, List.append_assoc]

/-- C7 counterexample: one `scoped_alloc` call from a fresh context.  The
emitted events are the bookkeeping record allocation (line 56) and then the
construction invocation (line 58), and no construction event precedes a record
allocation in that trace — the code allocates the Cleanup Record before
invoking the construction capability, contradicting the claimed step order. -/
theorem C7_step_order_counterexample :
    (scoped_alloc (some 1) true initial_thread_state).2.trace
      = [Event.recordAlloc, Event.construct (some 0)]
    ∧ ¬ precedes is_construct_ev is_record_alloc_ev
        (scoped_alloc (some 1) true initial_thread_state).2.trace := by
  constructor
  · rfl
  · decide

/-- C7 amended: `scoped_alloc` performs its steps in this order: (1) allocate
the Cleanup Record (line 56), (2) store the destructor in it (line 57), (3)
invoke the construction capability with the given arguments and store the
resulting handle in the record (line 58), (4) push the record onto the current
scope stack (lines 59-60), and (5) return the handle (line 61): the new events
are record allocation strictly before construction, and the pushed record
holds the destructor together with the returned handle. -/
theorem C7_record_alloc_before_construct (d : Option Nat) (cok : Bool) (s : ThreadState) :
    (scoped_alloc d cok s).2.trace
      = s.trace ++ [Event.recordAlloc, Event.construct ((scoped_alloc d cok s).1)]
    ∧ precedes is_record_alloc_ev is_construct_ev
        [Event.recordAlloc, Event.construct ((scoped_alloc d cok s).1)]
    ∧ (scoped_alloc d cok s).2.tl_node
      = { destructor := d, data := (scoped_alloc d cok s).1 } :: s.tl_node := by
  refine ⟨?_, ?_, ?_⟩
  · cases cok <;> rfl
  · exact ⟨⟨0, by simp⟩, ⟨1, by simp⟩, by simp, rfl, rfl⟩
  · cases cok <;> rfl

/-- C8 counterexample: a `scoped_alloc` call whose bookkeeping `malloc`
(line 56) fails.  The code performs no check and the run ends in a write
through the null record pointer (line 57) — the failed allocation is
dereferenced, contradicting the claim that it never is. -/
theorem C8_record_malloc_counterexample :
    scoped_alloc_checked false (some 1) true initial_thread_state
      = scoped_alloc_result.null_record_deref initial_thread_state := rfl

/-- C8 amended: when the bookkeeping `malloc` for the Cleanup Record fails,
`scoped_alloc` does not detect it: line 57 immediately dereferences the null
record pointer (undefined behaviour), with the state unchanged — in
particular the construction capability has not yet been invoked at that point,
so no constructed resource is leaked or double-destroyed; when the bookkeeping
`malloc` succeeds the call proceeds normally. -/
theorem C8_record_malloc_null_deref (d : Option Nat) (cok : Bool) (s : ThreadState) :
    scoped_alloc_checked false d cok s = scoped_alloc_result.null_record_deref s
    ∧ scoped_alloc_checked true d cok s
      = scoped_alloc_result.ret (scoped_alloc d cok s).1 (scoped_alloc d cok s).2 :=
  ⟨rfl, rfl⟩

/-- C9: `scoped_malloc(type)` is definitionally the general form
`scoped_alloc(free, malloc, sizeof(type))` (line 73): as a command it is the
same registration with destructor `free` and the `malloc` construction
capability, and inside any scope, surrounded by any other work, the two
produce identical execution — the same registrations, the same destruction
timing and order. -/
theorem C9_scoped_malloc_equiv (cok : Bool) (pre post : Cmd) (s : ThreadState) :
    scoped_malloc_cmd cok = Cmd.salloc (some free_fn) cok
    ∧ exec (Cmd.scope (Cmd.seq pre (Cmd.seq (scoped_malloc_cmd cok) post))) s
      = exec (Cmd.scope (Cmd.seq pre (Cmd.seq (Cmd.salloc (some free_fn) cok) post))) s :=
  ⟨rfl, rfl⟩

/-- C10: a `scoped_alloc` call made with no enclosing `enter_alloc_scope`
still succeeds: from the fresh context it invokes the construction capability
(the construct event is emitted), pushes a Cleanup Record onto the initial
empty thread-local stack, and returns the handle (0) — but whatever work runs
afterwards, no operation of the library ever destroys that record: its handle
has destroy count 0 in the final trace. -/
theorem C10_no_scope_registration_never_destroyed (d : Nat) (rest : Cmd) :
    (scoped_alloc (some d) true initial_thread_state).1 = some 0
    ∧ (scoped_alloc (some d) true initial_thread_state).2.trace
        = [Event.recordAlloc, Event.construct (some 0)]
    ∧ (scoped_alloc (some d) true initial_thread_state).2.tl_node
        = [{ destructor := some d, data := some 0 }]
    ∧ dCount (exec (Cmd.seq (Cmd.salloc (some d) true) rest) initial_thread_state).1.trace 0
        = 0 := by
  refine ⟨rfl, rfl, rfl, ?_⟩
  have h := exec_dCount_lt rest (scoped_alloc (some d) true initial_thread_state).2 0
    Nat.zero_lt_one
  simp only [exec]
  rw [h]
  rfl
